import Mathlib

namespace S3Client

instance {ε α : Type} [DecidableEq ε] [DecidableEq α] : DecidableEq (Except ε α) := fun x y =>
  match x, y with
  | .ok a, .ok b =>
    if h : a = b then isTrue (by rw [h]) else isFalse (fun hc => h (Except.ok.inj hc))
  | .error a, .error b =>
    if h : a = b then isTrue (by rw [h]) else isFalse (fun hc => h (Except.error.inj hc))
  | .ok _, .error _ => isFalse (fun hc => Except.noConfusion hc)
  | .error _, .ok _ => isFalse (fun hc => Except.noConfusion hc)

/-- Model of Go strings.SplitN(s, "/", 2) on the underlying character list:
none when the string has no slash (SplitN yields a single part), otherwise
the parts before and after the first slash. -/
def goSplitN2 : List Char → Option (List Char × List Char)
  | [] => none
  | c :: cs =>
    if c = '/' then some ([], cs)
    else
      match goSplitN2 cs with
      | none => none
      | some (l, r) => some (c :: l, r)

/-- Model of the strings.HasPrefix check for the s3 scheme: returns the
characters after the scheme when the string starts with the five scheme
characters, none otherwise. -/
def s3Suffix : List Char → Option (List Char)
  | 's' :: '3' :: ':' :: '/' :: '/' :: rest => some rest
  | _ => none

structure GoUrl where
  host : String
  path : String
deriving DecidableEq

/-- Modelled from the Go stdlib net/url Parse, restricted to s3 URLs whose
authority has no userinfo, port, percent-escapes, query or fragment: given
the characters after the scheme, the host is everything up to the first
slash and the path is the rest, beginning with that slash (empty when there
is no slash). -/
def urlParse (rest : List Char) : GoUrl :=
  { host := ⟨rest.takeWhile (fun c => c != '/')⟩,
    path := ⟨rest.dropWhile (fun c => c != '/')⟩ }

/-- Translation of parseAsObject from the CLI source: an address with the s3
scheme is parsed as a URL, the host is the bucket and the path the key, and a
path of a single slash is replaced by the empty key; any other address is
split on the first slash. When needKey is set, an empty resolved key in the
scheme branch, or the absence of a slash in the plain branch, is an error. -/
def parseAsObject (arg : String) (needKey : Bool) : Except String (String × String) :=
  match s3Suffix arg.data with
  | some rest =>
    let u := urlParse rest
    let bucket := u.host
    let key := if u.path = "/" then "" else u.path
    if key = "" ∧ needKey then .error "need key"
    else .ok (bucket, key)
  | none =>
    match goSplitN2 arg.data with
    | none => if needKey then .error "need key" else .ok (arg, "")
    | some (l, r) => .ok (⟨l⟩, ⟨r⟩)

example : parseAsObject "bucket/key/with/slashes" true = .ok ("bucket", "key/with/slashes") := rfl
example : parseAsObject "s3://my-bucket/a/b" true = .ok ("my-bucket", "/a/b") := rfl
example : parseAsObject "s3://my-bucket" true = .error "need key" := rfl
example : parseAsObject "s3://my-bucket/" false = .ok ("my-bucket", "") := rfl
example : parseAsObject "bucket/" true = .ok ("bucket", "") := rfl
example : parseAsObject "bucket" true = .error "need key" := rfl
example : parseAsObject "bucket" false = .ok ("bucket", "") := rfl

example : parseAsObject "bucket/" true = .ok ("bucket", "") := by decide

/-- Translation of strings.ReplaceAll(key, slash, underscore) used by the get
command to derive a local file name from a key. -/
def underscoreName (key : String) : String :=
  ⟨key.data.map (fun c => if c = '/' then '_' else c)⟩

/-- Modelled from the Go stdlib: filepath.Join of a clean directory path
without a trailing slash and a clean relative file name. -/
def joinPath (dir name : String) : String := dir ++ "/" ++ name

/-- Object reference from the client source: a bucket name and a key. -/
structure Object where
  bucket : String
  key : String
deriving DecidableEq

/-- File metadata as reported by os.Stat: the size in bytes (Go int64) and
whether the path is a directory. -/
structure FileInfo where
  size : Int
  isDir : Bool
deriving DecidableEq

/-- Request body handed to the SDK DeleteObjects call: the shared bucket and
the object keys, in order. -/
structure DeleteRequest where
  bucket : String
  keys : List String
deriving DecidableEq

/-- Loop body of DeleteObjects from the client source: walk the object list
in order, failing at the first object whose bucket differs from the bucket of
the first object, and otherwise collecting the keys in order. -/
def deleteObjectsKeys (bucket : String) : List Object → Except String (List String)
  | [] => .ok []
  | o :: rest =>
    if o.bucket ≠ bucket then .error "cannot delete multiple bucket objects at once"
    else
      match deleteObjectsKeys bucket rest with
      | .error e => .error e
      | .ok ks => .ok (o.key :: ks)

/-- Translation of DeleteObjects from the client source. The source reads the
bucket of element zero of the slice before any validation, so an empty batch
aborts with an index-out-of-range run-time failure rather than returning an
error value; the abort is modelled by none. On a non-empty batch the result
is the outcome of the bucket check: an error value, or the single request
that is then issued to the storage SDK. -/
def DeleteObjects (objs : List Object) : Option (Except String DeleteRequest) :=
  match objs with
  | [] => none
  | first :: _ =>
    some
      (match deleteObjectsKeys first.bucket objs with
        | .error e => .error e
        | .ok ks => .ok { bucket := first.bucket, keys := ks })

/-- SDK and identity-service calls the command dispatcher can issue, with the
request data each one carries. -/
inductive SCall where
  | listBuckets
  | listObjects (bucket keyPrefix : String)
  | getObject (bucket key : String)
  | putObject (bucket key bodyFile : String) (contentLength : Int) (contentType : String)
  | presignGetObject (bucket key : String)
  | stsGetCallerIdentity
deriving DecidableEq

def SCall.isListBuckets : SCall → Bool
  | .listBuckets => true
  | _ => false

def SCall.isListObjects : SCall → Bool
  | .listObjects _ _ => true
  | _ => false

/-- Fault-injection environment for one invocation: the outcome of every
external effect the dispatcher can perform. stat models both os.Stat and the
os.Open plus Stat pair of the put command (a path is readable exactly when it
is in the map); createErr the os.Create of the temporary download file;
remoteErr the outcome of the single remote SDK or identity call of the
invocation; copyErr an io.Copy failure mid-stream; gzipErr a gzip header
failure in zcat; renameErr the final os.Rename of get; cfgErr the
configuration loading that precedes dispatch. -/
structure Env where
  stat : String → Option FileInfo := fun _ => none
  createErr : Option String := none
  remoteErr : Option String := none
  copyErr : Option String := none
  gzipErr : Option String := none
  renameErr : Option String := none
  cfgErr : Option String := none

/-- Observable outcome of one dispatcher invocation: the remote calls issued
in order, the error returned by run, and for the get command whether the
temporary file was created, whether the deferred removal of the temporary
file ran, whether the rename into the final name was invoked, and the
resolved local file name. -/
structure RunResult where
  calls : List SCall := []
  err : Option String := none
  created : Bool := false
  tmpRemoveRan : Bool := false
  renamed : Bool := false
  localFile : String := ""

/-- Translation of needArgs from the CLI source: no error when the argument
count is one of the allowed counts. -/
def needArgs (args : List String) (needs : List Nat) : Option String :=
  if args.length ∈ needs then none else some "invalid arguments"

/-- Translation of the cat case: one address argument with a required key,
one GetObject call, then a copy of the body to standard output. -/
def runCat (env : Env) (args : List String) : RunResult :=
  match needArgs args [1] with
  | some e => { err := some e }
  | none =>
    match parseAsObject (args.headD "") true with
    | .error e => { err := some e }
    | .ok (bucket, key) =>
      match env.remoteErr with
      | some e => { calls := [.getObject bucket key], err := some e }
      | none => { calls := [.getObject bucket key], err := env.copyErr }

/-- Translation of the zcat case: as cat, with a gzip reader wrapped around
the body before the copy. -/
def runZcat (env : Env) (args : List String) : RunResult :=
  match needArgs args [1] with
  | some e => { err := some e }
  | none =>
    match parseAsObject (args.headD "") true with
    | .error e => { err := some e }
    | .ok (bucket, key) =>
      match env.remoteErr with
      | some e => { calls := [.getObject bucket key], err := some e }
      | none =>
        match env.gzipErr with
        | some e => { calls := [.getObject bucket key], err := some e }
        | none => { calls := [.getObject bucket key], err := env.copyErr }

/-- Translation of the get case: parse the address with a required key,
resolve the local file name (the key with slashes replaced when no file name
is given, or joined under the second argument when that names a directory),
create the temporary file, fetch the object, copy the body, and only then
rename the temporary file into place; the deferred removal of the temporary
file runs on every path after a successful create. -/
def runGet (env : Env) (args : List String) : RunResult :=
  match needArgs args [1, 2] with
  | some e => { err := some e }
  | none =>
    match parseAsObject (args.headD "") true with
    | .error e => { err := some e }
    | .ok (bucket, key) =>
      let localFile :=
        match args with
        | [_] => underscoreName key
        | _ :: a1 :: _ =>
          match env.stat a1 with
          | some info => if info.isDir then joinPath a1 (underscoreName key) else a1
          | none => a1
        | [] => ""
      match env.createErr with
      | some e => { err := some e, localFile := localFile }
      | none =>
        match env.remoteErr with
        | some e =>
          { calls := [.getObject bucket key], err := some e,
            created := true, tmpRemoveRan := true, localFile := localFile }
        | none =>
          match env.copyErr with
          | some e =>
            { calls := [.getObject bucket key], err := some e,
              created := true, tmpRemoveRan := true, localFile := localFile }
          | none =>
            { calls := [.getObject bucket key], err := env.renameErr,
              created := true, tmpRemoveRan := true, renamed := true,
              localFile := localFile }

/-- Translation of the ls case: with no argument a single ListBuckets call,
with one argument a parse with no required key followed by a single
ListObjects call on the resolved bucket and prefix. -/
def runLs (env : Env) (args : List String) : RunResult :=
  match needArgs args [0, 1] with
  | some e => { err := some e }
  | none =>
    match args with
    | [] => { calls := [.listBuckets], err := env.remoteErr }
    | a :: _ =>
      match parseAsObject a false with
      | .error e => { err := some e }
      | .ok (bucket, keyPrefix) =>
        { calls := [.listObjects bucket keyPrefix], err := env.remoteErr }

/-- Translation of the put case: strip the optional leading content-type
flag when more than two arguments remain and the first is the flag, open and
stat the local file, parse the address with a required key, then issue one
PutObject call carrying the file body, its stat size and the content type. -/
def runPut (env : Env) (args0 : List String) : RunResult :=
  let flagged : String × List String :=
    match args0 with
    | a0 :: a1 :: rest =>
      if 2 < args0.length ∧ a0 = "--content-type" then (a1, rest) else ("", args0)
    | _ => ("", args0)
  let contentType := flagged.1
  let args := flagged.2
  match needArgs args [2] with
  | some e => { err := some e }
  | none =>
    match args with
    | [localFile, addr] =>
      match env.stat localFile with
      | none => { err := some "no such file" }
      | some info =>
        match parseAsObject addr true with
        | .error e => { err := some e }
        | .ok (bucket, key) =>
          { calls := [.putObject bucket key localFile info.size contentType],
            err := env.remoteErr }
    | _ => { err := some "invalid arguments" }

/-- Translation of the public-url case: one address argument with a required
key; the URL is printed locally, no remote call is issued. -/
def runPublicUrl (args : List String) : RunResult :=
  match needArgs args [1] with
  | some e => { err := some e }
  | none =>
    match parseAsObject (args.headD "") true with
    | .error e => { err := some e }
    | .ok _ => {}

/-- Translation of the private-url case: one address argument with a required
key, then a single presign call. -/
def runPrivateUrl (env : Env) (args : List String) : RunResult :=
  match needArgs args [1] with
  | some e => { err := some e }
  | none =>
    match parseAsObject (args.headD "") true with
    | .error e => { err := some e }
    | .ok (bucket, key) =>
      { calls := [.presignGetObject bucket key], err := env.remoteErr }

/-- Translation of run from the CLI source: configuration loading precedes
the dispatch, then a flat switch over the subcommand with a default unknown
command error. -/
def run (env : Env) (cmd : String) (args : List String) : RunResult :=
  match env.cfgErr with
  | some e => { err := some e }
  | none =>
    if cmd = "help" ∨ cmd = "-h" ∨ cmd = "--help" then {}
    else if cmd = "version" ∨ cmd = "--version" then {}
    else if cmd = "whoami" then { calls := [.stsGetCallerIdentity], err := env.remoteErr }
    else if cmd = "cat" then runCat env args
    else if cmd = "zcat" then runZcat env args
    else if cmd = "get" then runGet env args
    else if cmd = "ls" then runLs env args
    else if cmd = "put" then runPut env args
    else if cmd = "public-url" then runPublicUrl args
    else if cmd = "private-url" then runPrivateUrl env args
    else { err := some ("unknown command: " ++ cmd) }

/-- Translation of main: argv is the argument vector after the program name;
with no subcommand the program prints need argument and exits 1, otherwise it
runs the subcommand and on error prints the error and exits 1. The pair is
the exit code and the message main prints to standard error, if any. -/
def mainGo (env : Env) (argv : List String) : Nat × Option String :=
  match argv with
  | [] => (1, some "need argument")
  | cmd :: args =>
    match (run env cmd args).err with
    | some e => (1, some e)
    | none => (0, none)

/-- Environment with every effect succeeding and an empty file system. -/
def env0 : Env := {}

example : (run env0 "ls" []).calls = [SCall.listBuckets] := rfl
example : (run env0 "ls" ["bucket/pre"]).calls = [SCall.listObjects "bucket" "pre"] := rfl
example : (run env0 "get" ["bucket/a/b/c.txt"]).localFile = "a_b_c.txt" := rfl
example : mainGo env0 ["foo"] = (1, some "unknown command: foo") := rfl
example : DeleteObjects [] = none := rfl
example :
    DeleteObjects [⟨"a", "k1"⟩, ⟨"b", "k2"⟩] =
      some (.error "cannot delete multiple bucket objects at once") := rfl
example :
    DeleteObjects [⟨"a", "k1"⟩, ⟨"a", "k2"⟩] =
      some (.ok { bucket := "a", keys := ["k1", "k2"] }) := rfl

theorem data_s3scheme : ("s3://" : String).data = ['s', '3', ':', '/', '/'] := rfl

theorem data_slash : ("/" : String).data = ['/'] := rfl

theorem takeWhile_append_slash (l r : List Char) (h : '/' ∉ l) :
    (l ++ '/' :: r).takeWhile (fun c => c != '/') = l := by
  induction l with
  | nil => simp
  | cons c cs ih =>
    have hc : c ≠ '/' := fun hcc => h (by simp [hcc])
    have hcs : '/' ∉ cs := fun hm => h (List.mem_cons_of_mem _ hm)
    simp [List.takeWhile_cons, hc, ih hcs]

theorem dropWhile_append_slash (l r : List Char) (h : '/' ∉ l) :
    (l ++ '/' :: r).dropWhile (fun c => c != '/') = '/' :: r := by
  induction l with
  | nil => simp
  | cons c cs ih =>
    have hc : c ≠ '/' := fun hcc => h (by simp [hcc])
    have hcs : '/' ∉ cs := fun hm => h (List.mem_cons_of_mem _ hm)
    simp [List.dropWhile_cons, hc, ih hcs]

theorem takeWhile_no_slash (l : List Char) (h : '/' ∉ l) :
    l.takeWhile (fun c => c != '/') = l := by
  induction l with
  | nil => simp
  | cons c cs ih =>
    have hc : c ≠ '/' := fun hcc => h (by simp [hcc])
    have hcs : '/' ∉ cs := fun hm => h (List.mem_cons_of_mem _ hm)
    simp [List.takeWhile_cons, hc, ih hcs]

theorem dropWhile_no_slash (l : List Char) (h : '/' ∉ l) :
    l.dropWhile (fun c => c != '/') = [] := by
  induction l with
  | nil => simp
  | cons c cs ih =>
    have hc : c ≠ '/' := fun hcc => h (by simp [hcc])
    have hcs : '/' ∉ cs := fun hm => h (List.mem_cons_of_mem _ hm)
    simp [List.dropWhile_cons, hc, ih hcs]

theorem goSplitN2_append (l r : List Char) (h : '/' ∉ l) :
    goSplitN2 (l ++ '/' :: r) = some (l, r) := by
  induction l with
  | nil => simp [goSplitN2]
  | cons c cs ih =>
    have hc : c ≠ '/' := fun hcc => h (by simp [hcc])
    have hcs : '/' ∉ cs := fun hm => h (List.mem_cons_of_mem _ hm)
    simp [goSplitN2, hc, ih hcs]

theorem goSplitN2_eq_none_iff (l : List Char) : goSplitN2 l = none ↔ '/' ∉ l := by
  induction l with
  | nil => simp [goSplitN2]
  | cons c cs ih =>
    by_cases hc : c = '/'
    · simp [goSplitN2, hc]
    · cases hs : goSplitN2 cs with
      | none =>
        have h1 : goSplitN2 (c :: cs) = none := by simp [goSplitN2, hc, hs]
        have h2 : '/' ∉ c :: cs := by
          intro hm
          rcases List.mem_cons.mp hm with h3 | h3
          · exact hc h3.symm
          · exact (ih.mp hs) h3
        simp [h1, h2]
      | some p =>
        obtain ⟨l, r⟩ := p
        have h1 : goSplitN2 (c :: cs) = some (c :: l, r) := by simp [goSplitN2, hc, hs]
        have h2 : '/' ∈ c :: cs := by
          by_contra hm
          have h3 : '/' ∉ cs := fun hmm => hm (List.mem_cons_of_mem _ hmm)
          rw [ih.mpr h3] at hs
          exact Option.noConfusion hs
        simp [h1, h2]

theorem data_scheme_concat (b rest : String) :
    ("s3://" ++ b ++ "/" ++ rest).data =
      's' :: '3' :: ':' :: '/' :: '/' :: (b.data ++ '/' :: rest.data) := by
  simp [String.data_append, data_s3scheme, data_slash]

theorem data_scheme_only (b : String) :
    ("s3://" ++ b).data = 's' :: '3' :: ':' :: '/' :: '/' :: b.data := by
  simp [String.data_append, data_s3scheme]

theorem data_scheme_trailing (b : String) :
    ("s3://" ++ b ++ "/").data =
      's' :: '3' :: ':' :: '/' :: '/' :: (b.data ++ ['/']) := by
  simp [String.data_append, data_s3scheme, data_slash]

/-- C5: for every plain (non s3 scheme) address string containing at least
one slash, the parser splits on the first slash only: everything before the
first slash is the bucket and everything after it, further slashes included,
is the key. -/
theorem c5_plain_split_first_slash (b k : String) (needKey : Bool)
    (hb : '/' ∉ b.data) (hs : s3Suffix (b ++ "/" ++ k).data = none) :
    parseAsObject (b ++ "/" ++ k) needKey = .ok (b, k) := by
  have hdata : (b ++ "/" ++ k).data = b.data ++ '/' :: k.data := by
    simp [String.data_append, data_slash]
  have hs2 : s3Suffix (b.data ++ '/' :: k.data) = none := hdata ▸ hs
  simp only [parseAsObject, hdata, hs2, goSplitN2_append _ _ hb]

/-- Witness for C5 at the address of the claim. -/
theorem c5_witness :
    parseAsObject "bucket/key/with/slashes" true = .ok ("bucket", "key/with/slashes") :=
  c5_plain_split_first_slash "bucket" "key/with/slashes" true (by decide) (by decide)

/-- C1 amended: for every s3 scheme address, the parser returns the URI host
as the bucket and the URI path unchanged as the key, the leading slash NOT
stripped; only a path of exactly one slash, or an empty path, yields an
empty key. -/
theorem c1_s3_scheme_host_path (b rest : String) (hb : '/' ∉ b.data) :
    (rest ≠ "" → ∀ needKey,
       parseAsObject ("s3://" ++ b ++ "/" ++ rest) needKey = .ok (b, "/" ++ rest)) ∧
    parseAsObject ("s3://" ++ b) false = .ok (b, "") ∧
    parseAsObject ("s3://" ++ b ++ "/") false = .ok (b, "") := by
  refine ⟨fun hr needKey => ?_, ?_, ?_⟩
  · have hrd : rest.data ≠ [] := fun hn => hr (String.ext hn)
    have hpath : (⟨'/' :: rest.data⟩ : String) = "/" ++ rest :=
      String.ext (by simp [String.data_append, data_slash])
    have hne1 : "/" ++ rest ≠ "/" := by
      intro hcc
      have h2 := String.ext_iff.mp hcc
      simp [String.data_append, data_slash] at h2
      exact hrd h2
    have hne2 : "/" ++ rest ≠ "" := by
      intro hcc
      have h2 := String.ext_iff.mp hcc
      simp [String.data_append, data_slash] at h2
    simp only [parseAsObject, data_scheme_concat, s3Suffix, urlParse,
      takeWhile_append_slash _ _ hb, dropWhile_append_slash _ _ hb]
    rw [hpath]
    simp [hne1, hne2]
  · have hempty : (⟨[]⟩ : String) = "" := rfl
    have hne : ("" : String) ≠ "/" := by decide
    simp only [parseAsObject, data_scheme_only, s3Suffix, urlParse,
      takeWhile_no_slash _ hb, dropWhile_no_slash _ hb]
    simp [hempty, hne]
  · have hp : (⟨['/']⟩ : String) = "/" := rfl
    simp only [parseAsObject, data_scheme_trailing, s3Suffix, urlParse,
      takeWhile_append_slash b.data [] hb, dropWhile_append_slash b.data [] hb]
    simp [hp]

/-- Counterexample to C1 as stated: the code keeps the leading slash of the
URI path, so the key for the address of the claim is a slash followed by a b,
not a b alone. -/
theorem c1_counterexample :
    parseAsObject "s3://my-bucket/a/b" true = .ok ("my-bucket", "/a/b") ∧
    parseAsObject "s3://my-bucket/a/b" true ≠ .ok ("my-bucket", "a/b") :=
  ⟨rfl, by decide⟩

/-- Witness for the amended C1 at the addresses of the claim. -/
theorem c1_witness :
    parseAsObject "s3://my-bucket/a/b" true = .ok ("my-bucket", "/a/b") ∧
    parseAsObject "s3://my-bucket" false = .ok ("my-bucket", "") ∧
    parseAsObject "s3://my-bucket/" false = .ok ("my-bucket", "") := by
  have h := c1_s3_scheme_host_path "my-bucket" "a/b" (by decide)
  exact ⟨h.1 (by decide) true, h.2.1, h.2.2⟩

/-- C2 amended: with needKey set, parsing fails with the key-required error
whenever the s3 scheme form resolves an empty key, and in the plain form
exactly when the string contains no slash at all; a plain string with a
trailing slash, such as bucket followed by a slash, resolves an empty key
yet parses successfully. -/
theorem c2_need_key (s : String) :
    (∀ rest, s3Suffix s.data = some rest → ∀ bkt,
       parseAsObject s false = .ok (bkt, "") →
       parseAsObject s true = .error "need key") ∧
    (s3Suffix s.data = none →
       (parseAsObject s true = .error "need key" ↔ '/' ∉ s.data)) := by
  constructor
  · intro rest hsuf bkt hok
    by_cases hpath : (urlParse rest).path = "/"
    · simp [parseAsObject, hsuf, hpath]
    · simp only [parseAsObject, hsuf] at hok ⊢
      simp [hpath] at hok ⊢
      simp [hok.2]
  · intro hsuf
    cases h2 : goSplitN2 s.data with
    | none =>
      simp [parseAsObject, hsuf, h2, (goSplitN2_eq_none_iff s.data).mp h2]
    | some p =>
      obtain ⟨l, r⟩ := p
      have hmem : '/' ∈ s.data := by
        by_contra hm
        rw [(goSplitN2_eq_none_iff s.data).mpr hm] at h2
        exact Option.noConfusion h2
      simp [parseAsObject, hsuf, h2, hmem]

/-- Counterexample to C2 as stated: the plain form with a trailing slash has
an empty resolved key, yet with needKey set the parser succeeds instead of
failing with the key-required error. -/
theorem c2_counterexample :
    parseAsObject "bucket/" true = .ok ("bucket", "") ∧
    parseAsObject "bucket/" true ≠ .error "need key" :=
  ⟨rfl, by decide⟩

/-- Witness for the amended C2: an s3 scheme address with an empty key and a
plain address with no slash both fail with the key-required error. -/
theorem c2_witness :
    parseAsObject "s3://mybucket" true = .error "need key" ∧
    parseAsObject "nokey" true = .error "need key" :=
  ⟨(c2_need_key "s3://mybucket").1 "mybucket".data (by decide) "mybucket" (by decide),
   ((c2_need_key "nokey").2 (by decide)).mpr (by decide)⟩

theorem deleteObjectsKeys_error (bkt : String) (objs : List Object)
    (h : ∃ o ∈ objs, o.bucket ≠ bkt) :
    deleteObjectsKeys bkt objs = .error "cannot delete multiple bucket objects at once" := by
  induction objs with
  | nil =>
    obtain ⟨o, ho, _⟩ := h
    exact absurd ho (List.not_mem_nil o)
  | cons o rest ih =>
    by_cases hob : o.bucket = bkt
    · obtain ⟨o2, ho2, hnb⟩ := h
      rcases List.mem_cons.mp ho2 with he | hm
      · rw [he] at hnb
        exact absurd hob hnb
      · have hrec := ih ⟨o2, hm, hnb⟩
        simp [deleteObjectsKeys, hob, hrec]
    · simp [deleteObjectsKeys, hob]

theorem deleteObjectsKeys_ok (bkt : String) (objs : List Object) (ks : List String)
    (h : deleteObjectsKeys bkt objs = .ok ks) : ∀ o ∈ objs, o.bucket = bkt := by
  induction objs generalizing ks with
  | nil =>
    intro o ho
    exact absurd ho (List.not_mem_nil o)
  | cons o rest ih =>
    intro o2 ho2
    by_cases hob : o.bucket = bkt
    · rcases List.mem_cons.mp ho2 with he | hm
      · rw [he]
        exact hob
      · cases hrec : deleteObjectsKeys bkt rest with
        | error e => simp [deleteObjectsKeys, hob, hrec] at h
        | ok ks2 => exact ih ks2 hrec o2 hm
    · simp [deleteObjectsKeys, hob] at h

/-- C3: on a non-empty batch, a cross-bucket pair makes DeleteObjects return
the cross-container error before any delete request exists, and a delete
request is produced only when every reference in the batch names one
bucket. -/
theorem c3_delete_single_bucket (objs : List Object) (hne : objs ≠ []) :
    ((∃ o1 ∈ objs, ∃ o2 ∈ objs, o1.bucket ≠ o2.bucket) →
       DeleteObjects objs = some (.error "cannot delete multiple bucket objects at once")) ∧
    (∀ req, DeleteObjects objs = some (.ok req) →
       ∀ o1 ∈ objs, ∀ o2 ∈ objs, o1.bucket = o2.bucket) := by
  match objs with
  | [] => exact absurd rfl hne
  | first :: rest =>
    constructor
    · rintro ⟨o1, h1, o2, h2, hb⟩
      have hex : ∃ o ∈ first :: rest, o.bucket ≠ first.bucket := by
        by_cases h1b : o1.bucket = first.bucket
        · exact ⟨o2, h2, fun hc => hb (h1b.trans hc.symm)⟩
        · exact ⟨o1, h1, h1b⟩
      simp [DeleteObjects, deleteObjectsKeys_error _ _ hex]
    · intro req hreq o1 h1 o2 h2
      cases hrec : deleteObjectsKeys first.bucket (first :: rest) with
      | error e => simp [DeleteObjects, hrec] at hreq
      | ok ks =>
        have hall := deleteObjectsKeys_ok _ _ _ hrec
        rw [hall o1 h1, hall o2 h2]

/-- Witness for C3: a two-element batch naming two buckets yields the
cross-container error and no request. -/
theorem c3_witness :
    DeleteObjects [⟨"a", "k1"⟩, ⟨"b", "k2"⟩] =
      some (.error "cannot delete multiple bucket objects at once") :=
  (c3_delete_single_bucket [⟨"a", "k1"⟩, ⟨"b", "k2"⟩] (by decide)).1
    ⟨⟨"a", "k1"⟩, by decide, ⟨"b", "k2"⟩, by decide, by decide⟩

/-- C10: the delete batch operation reads the first element before any
validation, so the empty batch aborts (modelled by none) rather than
returning an error value, and every non-empty batch is well defined. -/
theorem c10_delete_empty_batch_aborts :
    DeleteObjects [] = none ∧
    ∀ (o : Object) (rest : List Object), (DeleteObjects (o :: rest)).isSome = true :=
  ⟨rfl, fun _ _ => rfl⟩

/-- C4: in a run of the get command, a remote fetch error or a mid-stream
copy error after the temporary file was created leaves the destination
unrenamed with the deferred temporary-file removal executed, and the rename
is invoked only when the fetch and the whole body copy succeeded. -/
theorem c4_get_no_rename_on_failure (env : Env) (args : List String) :
    ((run env "get" args).created = true →
       env.remoteErr ≠ none ∨ env.copyErr ≠ none →
       (run env "get" args).renamed = false ∧ (run env "get" args).tmpRemoveRan = true) ∧
    ((run env "get" args).renamed = true →
       env.remoteErr = none ∧ env.copyErr = none ∧ (run env "get" args).created = true) := by
  cases hc : env.cfgErr with
  | some e =>
    constructor
    · intro hcr
      simp [run, hc] at hcr
    · intro hrn
      simp [run, hc] at hrn
  | none =>
    have heq : run env "get" args = runGet env args := by simp [run, hc]
    rw [heq]
    cases hn : needArgs args [1, 2] with
    | some e => simp [runGet, hn]
    | none =>
      cases hp : parseAsObject (args.head?.getD "") true with
      | error e => simp [runGet, hn, hp]
      | ok bk =>
        obtain ⟨bucket, key⟩ := bk
        cases hcr : env.createErr with
        | some e => simp [runGet, hn, hp, hcr]
        | none =>
          cases hre : env.remoteErr with
          | some e => simp [runGet, hn, hp, hcr, hre]
          | none =>
            cases hco : env.copyErr with
            | some e => simp [runGet, hn, hp, hcr, hre, hco]
            | none => simp [runGet, hn, hp, hcr, hre, hco]

/-- Witness for C4: a failing remote fetch after the temporary file was
created leaves the file unrenamed and the temporary file removed. -/
theorem c4_witness :
    (run { remoteErr := some "connection reset" } "get" ["bucket/key"]).renamed = false ∧
    (run { remoteErr := some "connection reset" } "get" ["bucket/key"]).tmpRemoveRan = true :=
  (c4_get_no_rename_on_failure { remoteErr := some "connection reset" } ["bucket/key"]).1
    rfl (Or.inl (by decide))

/-- C6: a run of put with the content-type flag issues one upload call
carrying exactly the given content type and a content length equal to the
stat size of the local file. -/
theorem c6_put_content_type_and_length (env : Env) (ty localFile addr bucket key : String)
    (info : FileInfo) (hc : env.cfgErr = none) (hstat : env.stat localFile = some info)
    (hp : parseAsObject addr true = .ok (bucket, key)) :
    (run env "put" ["--content-type", ty, localFile, addr]).calls =
      [SCall.putObject bucket key localFile info.size ty] := by
  simp [run, hc, runPut, needArgs, hstat, hp]

/-- Witness for C6 at the invocation of the claim, on a seven byte file. -/
theorem c6_witness :
    (run { stat := fun s => if s = "f.txt" then some { size := 7, isDir := false } else none }
        "put" ["--content-type", "text/plain", "f.txt", "bucket/key"]).calls =
      [SCall.putObject "bucket" "key" "f.txt" 7 "text/plain"] :=
  c6_put_content_type_and_length
    { stat := fun s => if s = "f.txt" then some { size := 7, isDir := false } else none }
    "text/plain" "f.txt" "bucket/key" "bucket" "key" { size := 7, isDir := false }
    rfl rfl rfl

/-- C7: in a run of the get command with no explicit local file name the
destination is the key with every slash replaced by an underscore, and with a
second argument naming an existing directory the destination is that name
joined under the directory. -/
theorem c7_get_local_filename (env : Env) (addr bucket key : String)
    (hc : env.cfgErr = none) (hp : parseAsObject addr true = .ok (bucket, key)) :
    ((run env "get" [addr]).localFile = underscoreName key) ∧
    (∀ dir info, env.stat dir = some info → info.isDir = true →
       (run env "get" [addr, dir]).localFile = joinPath dir (underscoreName key)) := by
  constructor
  · cases hcr : env.createErr <;> cases hre : env.remoteErr <;> cases hco : env.copyErr <;>
      simp [run, hc, runGet, needArgs, hp, hcr, hre, hco]
  · intro dir info hstat hdir
    cases hcr : env.createErr <;> cases hre : env.remoteErr <;> cases hco : env.copyErr <;>
      simp [run, hc, runGet, needArgs, hp, hstat, hdir, hcr, hre, hco]

/-- Witness for C7 on the key of the claim, without a file name argument and
with an existing directory as the file name argument. -/
theorem c7_witness :
    (run { stat := fun s => if s = "downloads" then some { size := 0, isDir := true } else none }
        "get" ["bucket/a/b/c.txt"]).localFile = "a_b_c.txt" ∧
    (run { stat := fun s => if s = "downloads" then some { size := 0, isDir := true } else none }
        "get" ["bucket/a/b/c.txt", "downloads"]).localFile = "downloads/a_b_c.txt" := by
  have h := c7_get_local_filename
    { stat := fun s => if s = "downloads" then some { size := 0, isDir := true } else none }
    "bucket/a/b/c.txt" "bucket" "a/b/c.txt" rfl rfl
  exact ⟨h.1, h.2 "downloads" { size := 0, isDir := true } rfl rfl⟩

theorem parseAsObject_no_needKey (a : String) :
    ∃ bucket keyPrefix, parseAsObject a false = .ok (bucket, keyPrefix) := by
  cases hs : s3Suffix a.data with
  | some rest =>
    by_cases hp : (urlParse rest).path = "/"
    · exact ⟨(urlParse rest).host, "", by simp [parseAsObject, hs, hp]⟩
    · exact ⟨(urlParse rest).host, (urlParse rest).path, by simp [parseAsObject, hs, hp]⟩
  | none =>
    cases h2 : goSplitN2 a.data with
    | none => exact ⟨a, "", by simp [parseAsObject, hs, h2]⟩
    | some p =>
      obtain ⟨l, r⟩ := p
      exact ⟨⟨l⟩, ⟨r⟩, by simp [parseAsObject, hs, h2]⟩

/-- C8: a run of ls with no argument issues only the bucket listing call and
never an object listing, a run with one argument issues only an object
listing call and never a bucket listing; when configuration loading succeeds
the respective single call is issued. -/
theorem c8_ls_dispatch (env : Env) (a : String) :
    ((run env "ls" []).calls.all SCall.isListBuckets = true) ∧
    ((run env "ls" [a]).calls.all SCall.isListObjects = true) ∧
    (env.cfgErr = none →
       (run env "ls" []).calls = [SCall.listBuckets] ∧
       ∃ bucket keyPrefix,
         (run env "ls" [a]).calls = [SCall.listObjects bucket keyPrefix]) := by
  refine ⟨?_, ?_, fun hcfg => ?_⟩
  · cases hc : env.cfgErr with
    | some e => simp [run, hc]
    | none => simp [run, hc, runLs, needArgs, SCall.isListBuckets]
  · cases hc : env.cfgErr with
    | some e => simp [run, hc]
    | none =>
      obtain ⟨bucket, keyPrefix, hp⟩ := parseAsObject_no_needKey a
      simp [run, hc, runLs, needArgs, hp, SCall.isListObjects]
  · obtain ⟨bucket, keyPrefix, hp⟩ := parseAsObject_no_needKey a
    exact ⟨by simp [run, hcfg, runLs, needArgs],
      bucket, keyPrefix, by simp [run, hcfg, runLs, needArgs, hp]⟩

/-- Witness for C8: with every effect succeeding, ls with no argument issues
exactly the bucket listing and ls with one argument exactly an object
listing. -/
theorem c8_witness :
    (run env0 "ls" []).calls = [SCall.listBuckets] ∧
    ∃ bucket keyPrefix,
      (run env0 "ls" ["bucket/pre"]).calls = [SCall.listObjects bucket keyPrefix] :=
  (c8_ls_dispatch env0 "bucket/pre").2.2 rfl

/-- Commands of the dispatch table of run, aliases included. -/
def knownCommands : List String :=
  ["help", "-h", "--help", "version", "--version", "whoami", "cat", "zcat",
   "get", "ls", "put", "public-url", "private-url"]

/-- C9: any subcommand outside the dispatch table makes the program exit
with code one and print to standard error the unknown command message
followed by the subcommand name. -/
theorem c9_unknown_command (env : Env) (cmd : String) (args : List String)
    (hc : env.cfgErr = none) (hu : cmd ∉ knownCommands) :
    mainGo env (cmd :: args) = (1, some ("unknown command: " ++ cmd)) := by
  simp [knownCommands, List.mem_cons, not_or] at hu
  obtain ⟨h1, h2, h3, h4, h5, h6, h7, h8, h9, h10, h11, h12, h13⟩ := hu
  simp [mainGo, run, hc, h1, h2, h3, h4, h5, h6, h7, h8, h9, h10, h11, h12, h13]

/-- Witness for C9 at the subcommand of the claim. -/
theorem c9_witness : mainGo env0 ["foo"] = (1, some "unknown command: foo") :=
  c9_unknown_command env0 "foo" [] rfl (by decide)

end S3Client
